import Mathlib

/-!
Shallow embedding of the credential broker (the agent-based `authManager`) and
the fetch target resolver (`resolveFetchUrlRef`) of the Gerrit Concourse
resource, with theorems settling the spec's claims about them.

Strings are modelled as lists of characters (`Str`).  The filesystem and the
process environment are modelled explicitly by a `World` record, and the
outcome of each spawned subprocess (`ssh-agent -s`, `os.Executable`,
`ssh-add`) is supplied by an `ExecOracle`, so that every run of the broker is
a pure computation over these inputs.
-/

abbrev Str := List Char

def str (s : String) : Str := s.data

deriving instance DecidableEq for Except

/-- Model of Go `strings.ContainsAny(s, chars)`. -/
def containsAny (s chars : Str) : Bool := s.any (fun c => chars.contains c)

/-- The two characters `credsPath` rejects: NUL and newline. -/
def nulNl : Str := ['\x00', '\n']

/-- Model of Go `strings.Split(s, sep)` for a one-character separator:
splits around every occurrence of `sep`; always returns at least one piece. -/
def splitChar (sep : Char) : Str → List Str
  | [] => [[]]
  | c :: cs =>
    if c = sep then [] :: splitChar sep cs
    else
      match splitChar sep cs with
      | [] => [[c]]
      | h :: t => (c :: h) :: t

theorem splitChar_ne_nil (sep : Char) (s : Str) : splitChar sep s ≠ [] := by
  cases s with
  | nil => simp [splitChar]
  | cons c cs =>
    by_cases h : c = sep
    · simp [splitChar, h]
    · cases hs : splitChar sep cs <;> simp [splitChar, h, hs]

theorem splitChar_cons_struct (sep : Char) (s : Str) :
    splitChar sep s = s.takeWhile (fun c => c != sep) :: (splitChar sep s).tail := by
  induction s with
  | nil => simp [splitChar]
  | cons c cs ih =>
    by_cases h : c = sep
    · simp [splitChar, h, List.takeWhile_cons]
    · cases hs : splitChar sep cs with
      | nil => exact absurd hs (splitChar_ne_nil sep cs)
      | cons a t =>
        rw [hs] at ih
        have ha : a = cs.takeWhile (fun c => c != sep) := by
          simpa using congrArg (fun l => List.headD l ([] : Str)) ih
        simp [splitChar, h, hs, List.takeWhile_cons, ha]

theorem splitChar_of_not_mem (sep : Char) (s : Str) (h : sep ∉ s) :
    splitChar sep s = [s] := by
  induction s with
  | nil => simp [splitChar]
  | cons c cs ih =>
    have hc : ¬ c = sep := fun hh => h (hh ▸ List.mem_cons_self c cs)
    have hcs : sep ∉ cs := fun hh => h (List.mem_cons_of_mem c hh)
    simp [splitChar, hc, ih hcs]

theorem splitChar_cons_of_mem (sep : Char) (s : Str) (h : sep ∈ s) :
    splitChar sep s =
      s.takeWhile (fun c => c != sep) ::
        splitChar sep ((s.dropWhile (fun c => c != sep)).tail) := by
  induction s with
  | nil => simp at h
  | cons c cs ih =>
    by_cases hc : c = sep
    · subst hc
      simp [splitChar, List.takeWhile_cons, List.dropWhile_cons]
    · have hcs : sep ∈ cs := by
        rcases List.mem_cons.mp h with h1 | h1
        · exact absurd h1.symm hc
        · exact h1
      have hrw := ih hcs
      simp [splitChar, hc, hrw, List.takeWhile_cons, List.dropWhile_cons]

/-- Model of Go `strings.SplitAfterN(s, sep, 2)`: split `s` after the first
occurrence of `sep` (if any) into at most two pieces.  `splitFirst` locates
the first occurrence, returning the part before it and the part after it. -/
def splitFirst (sep : Str) : Str → Option (Str × Str)
  | [] => if sep = [] then some ([], []) else none
  | c :: cs =>
    if sep.isPrefixOf (c :: cs) then some ([], (c :: cs).drop sep.length)
    else (splitFirst sep cs).map (fun p => (c :: p.1, p.2))

def splitAfterN2 (s sep : Str) : List Str :=
  match splitFirst sep s with
  | none => [s]
  | some (pre, post) => [pre ++ sep, post]

theorem isPrefixOf_append_self (l t : Str) : l.isPrefixOf (l ++ t) = true := by
  induction l with
  | nil => simp [List.isPrefixOf]
  | cons a as ih => simp [List.isPrefixOf, ih]

theorem splitFirst_append_self (sep rest : Str) (h : sep ≠ []) :
    splitFirst sep (sep ++ rest) = some ([], rest) := by
  cases hsep : sep with
  | nil => exact absurd hsep h
  | cons c cs =>
    rw [← hsep]
    have hne : sep ++ rest = c :: (cs ++ rest) := by rw [hsep]; simp
    rw [hne, splitFirst, ← hne]
    simp [isPrefixOf_append_self, List.drop_left]

theorem splitAfterN2_append_self (sep rest : Str) (h : sep ≠ []) :
    splitAfterN2 (sep ++ rest) sep = [sep, rest] := by
  simp [splitAfterN2, splitFirst_append_self sep rest h]

/-! ## The fetch target resolver (`resolveFetchUrlRef`) -/

/-- The `{url, ref}` pair stored per protocol in a revision's fetch map
(`gerrit.FetchInfo`). -/
structure FetchInfo where
  url : Str
  ref : Str
deriving DecidableEq

/-- The fields of `gerrit.RevisionInfo` the resolver reads: the default ref
and the protocol-name-keyed fetch map. -/
structure RevisionInfo where
  ref : Str
  fetch : List (Str × FetchInfo)
deriving DecidableEq

/-- The source configuration fields used by the broker and the resolver. -/
structure Source where
  cookies : Str
  username : Str
  password : Str
  digestAuth : Bool
  privateKey : Str
  privateKeyPassphrase : Str
  privateKeyUser : Str
  fetchProtocol : Str
  fetchUrl : Str
deriving DecidableEq

/-- The error outcomes of `resolveFetchUrlRef`, one constructor per
`fmt.Errorf` call site. -/
inductive ResolveErr where
  | notSshUrl (url : Str)
  | splitLen (url : Str) (n : Nat)
  | noFetchInfo (proto : Str)
deriving DecidableEq

/-- The message text of each resolver error (Go renders the protocol of
`noFetchInfo` with `%q`, i.e. surrounded by double quotes). -/
def ResolveErr.message : ResolveErr → Str
  | .notSshUrl url =>
      str "FetchUrl '" ++ url ++ str "' is not an ssh url, but PrivateKeyUser was set"
  | .splitLen url n =>
      str "Unable to split fetchUrl " ++ url ++
        str " to insert the privateKeyUser, got the wrong length: " ++ (Nat.repr n).data
  | .noFetchInfo proto => str "no fetch info for protocol \"" ++ proto ++ str "\""

def sshScheme : Str := str "ssh://"

def defaultFetchProtocols : List Str := [str "http", str "anonymous http"]

/-- Second half of `resolveFetchUrlRef`: default the ref, and when the url is
still empty resolve it through the protocol fallback and the fetch map. -/
def resolveAfterUser (src : Source) (rev : RevisionInfo) (url : Str) :
    Str × Str × Option ResolveErr :=
  if url = [] then
    let fetchProtocol :=
      if src.fetchProtocol = [] then
        (defaultFetchProtocols.find? (fun proto => (rev.fetch.lookup proto).isSome)).getD []
      else src.fetchProtocol
    match rev.fetch.lookup fetchProtocol with
    | some fetchInfo => (fetchInfo.url, fetchInfo.ref, none)
    | none => (url, rev.ref, some (.noFetchInfo fetchProtocol))
  else (url, rev.ref, none)

/-- `resolveFetchUrlRef` of the current (agent-based) variant: optional
ssh-user injection with `strings.SplitAfterN(url, "ssh://", 2)`, then
protocol resolution.  Returns the `(url, ref, err)` triple of the Go
function. -/
def resolveFetchUrlRef (src : Source) (rev : RevisionInfo) :
    Str × Str × Option ResolveErr :=
  if src.privateKeyUser = [] then
    resolveAfterUser src rev src.fetchUrl
  else if sshScheme.isPrefixOf src.fetchUrl then
    match splitAfterN2 src.fetchUrl sshScheme with
    | [p0, p1] => resolveAfterUser src rev (p0 ++ src.privateKeyUser ++ '@' :: p1)
    | parts => ([], [], some (.splitLen src.fetchUrl parts.length))
  else ([], [], some (.notSshUrl src.fetchUrl))


/-! ## The secret material broker (`authManager`, agent-based variant) -/

/-- The observable effectful state of one operation: files on disk (path and
contents), the counter feeding fresh temp-file names, and the process
environment table. -/
structure World where
  files : List (Str × Str)
  nextTemp : Nat
  env : List (Str × Str)
deriving DecidableEq

def emptyWorld : World := { files := [], nextTemp := 0, env := [] }

/-- Fresh temp-file name for a given name pattern, as produced by
`ioutil.TempFile`: the pattern followed by a unique suffix. -/
def tempName (pattern : Str) (n : Nat) : Str := pattern ++ (Nat.repr n).data

def fileExists (w : World) (p : Str) : Bool := w.files.any (fun f => f.1 == p)

def removeFile (w : World) (p : Str) : World :=
  { w with files := w.files.filter (fun f => !(f.1 == p)) }

/-- `os.Setenv`: replace the binding of the key, or append a new one. -/
def setAssoc (env : List (Str × Str)) (k v : Str) : List (Str × Str) :=
  match env with
  | [] => [(k, v)]
  | (k', v') :: rest => if k' = k then (k, v) :: rest else (k', v') :: setAssoc rest k v

/-- Outcomes of the subprocess calls made while adding the ssh key: the
combined output (or failure) of `ssh-agent -s`, of `os.Executable()`, and of
`ssh-add`. -/
structure ExecOracle where
  agentStart : Except Str Str
  executable : Except Str Str
  sshAdd : Except Str Str

/-- The broker state: `authManager` of the agent-based variant. -/
structure AuthManager where
  cookies : Str
  cookiesPath_ : Str
  username : Str
  password : Str
  digest : Bool
  sshPrivateKeyPassphrase : Str
  sshPrivateKey : Str
  credsPath_ : Str
  sshAgentVars : List Str
deriving DecidableEq

def newAuthManager (source : Source) : AuthManager :=
  { cookies := source.cookies
    cookiesPath_ := []
    username := source.username
    password := source.password
    digest := source.digestAuth
    sshPrivateKeyPassphrase := source.privateKeyPassphrase
    sshPrivateKey := source.privateKey
    credsPath_ := []
    sshAgentVars := [] }

def cookiesPattern : Str := str "concourse-gerrit-cookies"
def credsPattern : Str := str "concourse-gerrit-creds"
def privateKeyPattern : Str := str "gerrit-resource-private-key-"
def invalidCharMsg : Str := str "invalid character in username or password"
def passwordBlankMsg : Str := str "Password specified but username is blank"
def sshCommandOverride : Str := str "ssh -F /dev/null -o StrictHostKeyChecking=no"

/-- `writeAuthTempFile`: create a fresh temp file holding `contents` and
return its path. -/
def writeAuthTempFile (pattern contents : Str) (w : World) : Str × World :=
  let p := tempName pattern w.nextTemp
  (p, { w with files := (p, contents) :: w.files, nextTemp := w.nextTemp + 1 })

/-- `storePrivateKey`: write the key material to a fresh mode-0600 temp file
(the mode change is not observable in this model). -/
def storePrivateKey (privateKey : Str) (w : World) : Str × World :=
  if privateKey = [] then ([], w)
  else
    let p := tempName privateKeyPattern w.nextTemp
    (p, { w with files := (p, privateKey) :: w.files, nextTemp := w.nextTemp + 1 })

/-- The `ssh-agent -s` output scan inside `sshAddKey`: split the output into
lines, keep each line's first `;`-segment when it contains `=` (these become
`am.sshAgentVars`), and `os.Setenv` the text before the first `=` to the text
between the first and the second `=` (Go `strings.Split(assignment[0], "=")`
indices 0 and 1). -/
def agentLineStep (acc : List Str × List (Str × Str)) (s : Str) :
    List Str × List (Str × Str) :=
  match splitChar ';' s with
  | [] => acc
  | a0 :: _ =>
    if '=' ∈ a0 then
      match splitChar '=' a0 with
      | k :: v :: _ => (acc.1 ++ [a0], setAssoc acc.2 k v)
      | _ => (acc.1 ++ [a0], acc.2)
    else acc

def applyAgentOutput (output : Str) (env : List (Str × Str)) :
    List Str × List (Str × Str) :=
  (splitChar '\n' output).foldl agentLineStep ([], env)

/-- `sshAddKey`: store the key file, register it in `credsPath_`, start
`ssh-agent`, parse and apply its published environment variables, then run
`ssh-add`.  Each subprocess failure is returned to the caller. -/
def sshAddKey (o : ExecOracle) (am : AuthManager) (w : World) :
    Except Str Unit × AuthManager × World :=
  if am.sshPrivateKey = [] then (.ok (), am, w)
  else
    let stored := storePrivateKey am.sshPrivateKey w
    let am1 := { am with credsPath_ := stored.1 }
    match o.agentStart with
    | .error e => (.error e, am1, stored.2)
    | .ok output =>
      let parsed := applyAgentOutput output stored.2.env
      let am2 := { am1 with sshAgentVars := parsed.1 }
      let w2 := { stored.2 with env := parsed.2 }
      match o.executable with
      | .error e => (.error e, am2, w2)
      | .ok _ =>
        match o.sshAdd with
        | .error e => (.error e, am2, w2)
        | .ok _ => (.ok (), am2, w2)

def cookiesPath (am : AuthManager) (w : World) :
    Except Str Str × AuthManager × World :=
  if am.cookies = [] then (.ok [], am, w)
  else if am.cookiesPath_ = [] then
    let written := writeAuthTempFile cookiesPattern am.cookies w
    (.ok written.1, { am with cookiesPath_ := written.1 }, written.2)
  else (.ok am.cookiesPath_, am, w)

/-- `credsPath` of the agent-based variant: only materializes the two-line
credential file when no path is recorded yet and no ssh key is configured;
rejects NUL and newline in username or password before writing. -/
def credsPath (am : AuthManager) (w : World) :
    Except Str Str × AuthManager × World :=
  if am.username = [] then (.ok [], am, w)
  else if am.credsPath_ = [] ∧ am.sshPrivateKey = [] then
    if containsAny am.username nulNl || containsAny am.password nulNl then
      (.error invalidCharMsg, am, w)
    else
      let contents :=
        str "username=" ++ am.username ++ str "\npassword=" ++ am.password ++ str "\n"
      let written := writeAuthTempFile credsPattern contents w
      (.ok written.1, { am with credsPath_ := written.1 }, written.2)
  else (.ok am.credsPath_, am, w)

/-- The REST authentication mechanisms `gerritAuth` can pick. -/
inductive GerritAuth where
  | basic (username password : Str)
  | digest (username password : Str)
  | cookieFile (path : Str)
  | noAuth
deriving DecidableEq

/-- `gerritAuth` (the spec's `restAuthMechanism()`): username wins (basic or
digest), a password without username is a configuration error, then cookies,
then no auth. -/
def gerritAuth (am : AuthManager) (w : World) :
    Except Str GerritAuth × AuthManager × World :=
  if am.username ≠ [] then
    (if am.digest then .ok (.digest am.username am.password)
     else .ok (.basic am.username am.password), am, w)
  else if am.password ≠ [] then (.error passwordBlankMsg, am, w)
  else if am.cookies ≠ [] then
    let r := cookiesPath am w
    match r.1 with
    | .error e => (.error e, r.2.1, r.2.2)
    | .ok p => (.ok (.cookieFile p), r.2.1, r.2.2)
  else (.ok .noAuth, am, w)

/-- Tail of `gitConfigArgs`: append the `http.cookieFile` entry when cookie
material is configured. -/
def withCookies (args : List (Str × Str)) (am : AuthManager) (w : World) :
    Except Str (List (Str × Str)) × AuthManager × World :=
  if am.cookies ≠ [] then
    let r := cookiesPath am w
    match r.1 with
    | .error e => (.error e, r.2.1, r.2.2)
    | .ok p => (.ok (args ++ [(str "http.cookieFile", p)]), r.2.1, r.2.2)
  else (.ok args, am, w)

/-- `gitConfigArgs` (the spec's `vcsConfigEntries()`).  In the ssh branch the
source calls `am.sshAddKey()` and drops its result, so the first component
here likewise ignores `sshAddKey`'s error, keeping only its state effects. -/
def gitConfigArgs (o : ExecOracle) (am : AuthManager) (w : World) :
    Except Str (List (Str × Str)) × AuthManager × World :=
  if am.sshPrivateKey ≠ [] then
    let added := sshAddKey o am w
    withCookies [(str "core.sshCommand", sshCommandOverride)] added.2.1 added.2.2
  else if am.username ≠ [] then
    let r := credsPath am w
    match r.1 with
    | .error e => (.error e, r.2.1, r.2.2)
    | .ok cp => withCookies [(str "credential.helper", str "!cat " ++ cp)] r.2.1 r.2.2
  else withCookies [] am w

/-- What `cleanup` did: every path handed to `os.Remove`, and whether the
agent kill command ran. -/
structure CleanupTrace where
  removed : List Str
  killedAgent : Bool
deriving DecidableEq

/-- `sshKillAgent`: run `ssh-agent -k` and clear the recorded agent variables
when some were recorded; the kill command's own outcome is ignored. -/
def sshKillAgent (am : AuthManager) : AuthManager × Bool :=
  if am.sshAgentVars.length > 0 then ({ am with sshAgentVars := [] }, true)
  else (am, false)

/-- One step of `cleanup`'s path loop: remove the file and blank the field
when the field is non-empty, reporting the removed path. -/
def removePathField (w : World) (p : Str) : Str × World × List Str :=
  if p = [] then (p, w, [])
  else ([], removeFile w p, [p])

/-- `cleanup`: remove and blank `cookiesPath_` and `credsPath_` (removal
failures are only logged), run the (dead) second cookie-path check, then kill
the agent if one was started. -/
def cleanup (am : AuthManager) (w : World) : AuthManager × World × CleanupTrace :=
  let r1 := removePathField w am.cookiesPath_
  let r2 := removePathField r1.2.1 am.credsPath_
  let am1 := { am with cookiesPath_ := r1.1, credsPath_ := r2.1 }
  let r3 := removePathField r2.2.1 am1.cookiesPath_
  let am2 := { am1 with cookiesPath_ := r3.1 }
  let killed := sshKillAgent am2
  (killed.1, r3.2.1, { removed := r1.2.2 ++ r2.2.2 ++ r3.2.2, killedAgent := killed.2 })

/-! ## Claim theorems: the resolver -/

/-- C1: with a non-empty ssh user `u` and a fetch url `"ssh://" ++ rest`
(`rest` non-empty), the resolver succeeds and returns
`"ssh://" ++ u ++ "@" ++ rest` — the user inserted exactly once right after
the scheme separator, which is neither consumed nor duplicated — with the
ref equal to the revision's default ref. -/
theorem resolve_ssh_user_insertion (src : Source) (rev : RevisionInfo) (u rest : Str)
    (hu : src.privateKeyUser = u) (hune : u ≠ []) (_hrest : rest ≠ [])
    (hurl : src.fetchUrl = sshScheme ++ rest) :
    resolveFetchUrlRef src rev = (sshScheme ++ u ++ '@' :: rest, rev.ref, none) := by
  subst hu
  have hssh : sshScheme ≠ [] := by decide
  simp only [resolveFetchUrlRef, hurl, if_neg hune, isPrefixOf_append_self,
    splitAfterN2_append_self sshScheme rest hssh, if_true]
  simp [resolveAfterUser, List.append_eq_nil, hssh]

def srcAllUnset : Source :=
  { cookies := [], username := [], password := [], digestAuth := false,
    privateKey := [], privateKeyPassphrase := [], privateKeyUser := [],
    fetchProtocol := [], fetchUrl := [] }

def srcSshC1 : Source :=
  { srcAllUnset with privateKeyUser := str "ci", fetchUrl := str "ssh://host/repo" }

def revC1 : RevisionInfo := { ref := str "refs/changes/01/1/1", fetch := [] }

/-- Witness for C1 at `sshUser="ci"`, `fetchUrl="ssh://host/repo"`. -/
theorem resolve_ssh_user_insertion_witness :
    (str "ci" : Str) ≠ [] ∧ (str "host/repo" : Str) ≠ [] ∧
    srcSshC1.fetchUrl = sshScheme ++ str "host/repo" ∧
    resolveFetchUrlRef srcSshC1 revC1 =
      (str "ssh://ci@host/repo", str "refs/changes/01/1/1", none) :=
  ⟨by decide, by decide, by decide, by
    rw [resolve_ssh_user_insertion srcSshC1 revC1 (str "ci") (str "host/repo")
      rfl (by decide) (by decide) (by decide)]
    decide⟩

/-- C7: with fetch url, fetch protocol and ssh user all unset, and a fetch
map containing `"anonymous http"` but not `"http"`, the resolver selects the
`"anonymous http"` entry: the fallback order skips the missing `"http"`, and
both the url and the ref come from the looked-up entry (overriding the
default ref). -/
theorem resolve_protocol_fallback (src : Source) (rev : RevisionInfo) (fi : FetchInfo)
    (h1 : src.fetchUrl = []) (h2 : src.fetchProtocol = []) (h3 : src.privateKeyUser = [])
    (h4 : rev.fetch.lookup (str "http") = none)
    (h5 : rev.fetch.lookup (str "anonymous http") = some fi) :
    resolveFetchUrlRef src rev = (fi.url, fi.ref, none) := by
  simp [resolveFetchUrlRef, h3, resolveAfterUser, h1, h2, defaultFetchProtocols,
    List.find?, h4, h5]

def revC7 : RevisionInfo :=
  { ref := str "refs/default",
    fetch := [(str "anonymous http",
      { url := str "http://gerrit/p", ref := str "refs/changes/07/7/2" })] }

/-- Witness for C7 at a fetch map holding only `"anonymous http"`. -/
theorem resolve_protocol_fallback_witness :
    revC7.fetch.lookup (str "http") = none ∧
    revC7.fetch.lookup (str "anonymous http") =
      some { url := str "http://gerrit/p", ref := str "refs/changes/07/7/2" } ∧
    resolveFetchUrlRef srcAllUnset revC7 =
      (str "http://gerrit/p", str "refs/changes/07/7/2", none) :=
  ⟨by decide, by decide,
    resolve_protocol_fallback srcAllUnset revC7
      { url := str "http://gerrit/p", ref := str "refs/changes/07/7/2" }
      rfl rfl rfl (by decide) (by decide)⟩

/-- C8: with fetch url and ssh user unset and an explicit fetch protocol `p`
absent from the fetch map, the resolver fails with the not-found error naming
`p` (message `no fetch info for protocol "p"`) and returns no url. -/
theorem resolve_missing_protocol (src : Source) (rev : RevisionInfo) (p : Str)
    (h1 : src.fetchUrl = []) (h2 : src.privateKeyUser = [])
    (h3 : src.fetchProtocol = p) (h4 : p ≠ [])
    (h5 : rev.fetch.lookup p = none) :
    resolveFetchUrlRef src rev = ([], rev.ref, some (.noFetchInfo p)) ∧
      (ResolveErr.noFetchInfo p).message =
        str "no fetch info for protocol \"" ++ p ++ str "\"" := by
  constructor
  · simp [resolveFetchUrlRef, h2, resolveAfterUser, h1, h3, h4, h5]
  · rfl

def srcC8 : Source := { srcAllUnset with fetchProtocol := str "sso" }

def revC8 : RevisionInfo := { ref := str "refs/x", fetch := [] }

/-- Witness for C8 at the explicitly requested protocol `"sso"`. -/
theorem resolve_missing_protocol_witness :
    (str "sso" : Str) ≠ [] ∧ revC8.fetch.lookup (str "sso") = none ∧
    (resolveFetchUrlRef srcC8 revC8 =
        ([], str "refs/x", some (.noFetchInfo (str "sso"))) ∧
      (ResolveErr.noFetchInfo (str "sso")).message =
        str "no fetch info for protocol \"" ++ str "sso" ++ str "\"") :=
  ⟨by decide, by decide,
    resolve_missing_protocol srcC8 revC8 (str "sso") rfl rfl rfl (by decide) (by decide)⟩

def revEmptyProto : RevisionInfo :=
  { ref := str "refs/meta/config",
    fetch := [(str "", { url := str "http://h/r", ref := str "refs/changes/21/1/1" })] }

/-- C10 counterexample: a fetch map containing neither `"http"` nor
`"anonymous http"` but holding an entry under the empty protocol name: the
claim demands the not-found failure, yet the code looks up the empty name,
finds that entry and succeeds with its url and ref. -/
theorem resolve_empty_protocol_counterexample :
    revEmptyProto.fetch.lookup (str "http") = none ∧
    revEmptyProto.fetch.lookup (str "anonymous http") = none ∧
    resolveFetchUrlRef srcAllUnset revEmptyProto =
      (str "http://h/r", str "refs/changes/21/1/1", none) := by decide

/-- C10 (amended): with fetch url, fetch protocol and ssh user all unset and
a fetch map containing neither `"http"`, `"anonymous http"`, nor the empty
protocol name, the resolver selects no other protocol and fails with the
not-found error for the empty protocol name. -/
theorem resolve_no_default_protocol (src : Source) (rev : RevisionInfo)
    (h1 : src.fetchUrl = []) (h2 : src.fetchProtocol = []) (h3 : src.privateKeyUser = [])
    (h4 : rev.fetch.lookup (str "http") = none)
    (h5 : rev.fetch.lookup (str "anonymous http") = none)
    (h6 : rev.fetch.lookup ([] : Str) = none) :
    resolveFetchUrlRef src rev = ([], rev.ref, some (.noFetchInfo [])) := by
  simp [resolveFetchUrlRef, h3, resolveAfterUser, h1, h2, defaultFetchProtocols,
    List.find?, h4, h5, h6]

def revC10 : RevisionInfo :=
  { ref := str "refs/y", fetch := [(str "ssh", { url := str "ssh://h/p", ref := str "refs/z" })] }

/-- Witness for the amended C10 at a fetch map holding only `"ssh"`. -/
theorem resolve_no_default_protocol_witness :
    revC10.fetch.lookup (str "http") = none ∧
    revC10.fetch.lookup (str "anonymous http") = none ∧
    revC10.fetch.lookup ([] : Str) = none ∧
    resolveFetchUrlRef srcAllUnset revC10 = ([], str "refs/y", some (.noFetchInfo [])) :=
  ⟨by decide, by decide, by decide,
    resolve_no_default_protocol srcAllUnset revC10 rfl rfl rfl
      (by decide) (by decide) (by decide)⟩

/-! ## Claim theorems: the broker -/

theorem cleanup_blanks_fields (am : AuthManager) (w : World) :
    (cleanup am w).1.cookiesPath_ = [] ∧ (cleanup am w).1.credsPath_ = [] ∧
      (cleanup am w).1.sshAgentVars = [] := by
  obtain ⟨ck, ckp, u, p, d, pp, k, cp, vars⟩ := am
  by_cases h1 : ckp = [] <;> by_cases h2 : cp = [] <;> by_cases h3 : vars.length > 0 <;>
    simp_all [cleanup, removePathField, sshKillAgent, List.length_pos]

theorem cleanup_of_blank (am : AuthManager) (w : World)
    (h1 : am.cookiesPath_ = []) (h2 : am.credsPath_ = []) (h3 : am.sshAgentVars = []) :
    cleanup am w = (am, w, { removed := [], killedAgent := false }) := by
  obtain ⟨ck, ckp, u, p, d, pp, k, cp, vars⟩ := am
  simp only at h1 h2 h3
  subst h1; subst h2; subst h3
  simp [cleanup, removePathField, sshKillAgent]

/-- C4: for every broker state and filesystem, a second `cleanup` right after
a first one removes no file, kills no agent, and leaves both the broker state
and the world (filesystem and environment) exactly as the first left them. -/
theorem cleanup_idempotent (am : AuthManager) (w : World) :
    cleanup (cleanup am w).1 (cleanup am w).2.1 =
      ((cleanup am w).1, (cleanup am w).2.1, { removed := [], killedAgent := false }) := by
  obtain ⟨hc1, hc2, hc3⟩ := cleanup_blanks_fields am w
  exact cleanup_of_blank _ _ hc1 hc2 hc3

/-- C9: `gerritAuth` (the spec's `restAuthMechanism()`) is independent of the
ssh key material and passphrase: two configurations differing only in those
fields yield the same mechanism or error; and a password without a username
is rejected with the config error, for any password value. -/
theorem gerritAuth_ssh_independent (s : Source) (k pp : Str) (w : World) :
    (gerritAuth (newAuthManager { s with privateKey := k, privateKeyPassphrase := pp }) w).1
      = (gerritAuth (newAuthManager s) w).1 ∧
    (s.username = [] → s.password ≠ [] →
      (gerritAuth (newAuthManager s) w).1 = .error passwordBlankMsg) := by
  constructor
  · by_cases hu : s.username = [] <;> by_cases hp : s.password = [] <;>
      by_cases hc : s.cookies = [] <;>
      simp [gerritAuth, newAuthManager, cookiesPath, hu, hp, hc]
  · intro h1 h2
    simp [gerritAuth, newAuthManager, h1, h2]

def srcCookiesOnly : Source := { srcAllUnset with cookies := str "c1=v1" }

def srcPasswordOnly : Source := { srcAllUnset with password := str "p" }

/-- Witness for C9: adding key material to a cookies-only configuration does
not change the mechanism, and a password-only configuration errors. -/
theorem gerritAuth_ssh_independent_witness :
    (gerritAuth (newAuthManager
        { srcCookiesOnly with privateKey := str "KEY", privateKeyPassphrase := str "pp" })
        emptyWorld).1
      = (gerritAuth (newAuthManager srcCookiesOnly) emptyWorld).1 ∧
    (srcPasswordOnly.username = [] ∧ srcPasswordOnly.password ≠ [] ∧
      (gerritAuth (newAuthManager srcPasswordOnly) emptyWorld).1 = .error passwordBlankMsg) :=
  ⟨(gerritAuth_ssh_independent srcCookiesOnly (str "KEY") (str "pp") emptyWorld).1,
    by decide, by decide,
    (gerritAuth_ssh_independent srcPasswordOnly [] [] emptyWorld).2 (by decide) (by decide)⟩

def anyOracle : ExecOracle :=
  { agentStart := .ok [], executable := .ok [], sshAdd := .ok [] }

def srcBadPassword : Source := { srcAllUnset with password := str "\n" }

/-- C5 counterexample: the password consists of a newline but the username is
empty, so the configuration satisfies the claim's premise; yet
`gitConfigArgs` (the spec's `vcsConfigEntries()`) succeeds with no entries
instead of failing with the validation error — the check only runs when a
credential file is about to be written. -/
theorem creds_validation_counterexample :
    containsAny srcBadPassword.password nulNl = true ∧
    (gitConfigArgs anyOracle (newAuthManager srcBadPassword) emptyWorld).1 = .ok [] ∧
    (gitConfigArgs anyOracle (newAuthManager srcBadPassword) emptyWorld).2.2.files = [] := by
  decide

/-- C5 (amended): for a configuration with a non-empty username and no ssh
key, a NUL byte or newline in the username or the password makes
`gitConfigArgs` fail with the validation error, and no credential file is
written (the filesystem is untouched). -/
theorem creds_validation (o : ExecOracle) (s : Source) (w : World)
    (h1 : s.username ≠ []) (h2 : s.privateKey = [])
    (h3 : containsAny s.username nulNl = true ∨ containsAny s.password nulNl = true) :
    (gitConfigArgs o (newAuthManager s) w).1 = .error invalidCharMsg ∧
    (gitConfigArgs o (newAuthManager s) w).2.2.files = w.files := by
  have hcond : (containsAny s.username nulNl || containsAny s.password nulNl) = true := by
    rcases h3 with h3 | h3 <;> simp [h3]
  have hcreds : credsPath (newAuthManager s) w =
      (.error invalidCharMsg, newAuthManager s, w) := by
    simp only [credsPath, newAuthManager]
    simp [h1, h2, hcond]
  have hkey : (newAuthManager s).sshPrivateKey = [] := by simp [newAuthManager, h2]
  have huser : (newAuthManager s).username ≠ [] := by simpa [newAuthManager] using h1
  constructor <;> simp [gitConfigArgs, hkey, huser, hcreds]

def srcBadCreds : Source :=
  { srcAllUnset with username := str "u", password := str "p\np2" }

/-- Witness for the amended C5 at username `u`, password containing a
newline. -/
theorem creds_validation_witness :
    srcBadCreds.username ≠ [] ∧ srcBadCreds.privateKey = [] ∧
    containsAny srcBadCreds.password nulNl = true ∧
    ((gitConfigArgs anyOracle (newAuthManager srcBadCreds) emptyWorld).1
        = .error invalidCharMsg ∧
      (gitConfigArgs anyOracle (newAuthManager srcBadCreds) emptyWorld).2.2.files = []) :=
  ⟨by decide, by decide, by decide,
    creds_validation anyOracle srcBadCreds emptyWorld (by decide) (by decide)
      (Or.inr (by decide))⟩

def sshRunSource : Source :=
  { srcAllUnset with privateKey := str "PRIVATE KEY", privateKeyUser := str "ci" }

def agentOkOracle : ExecOracle :=
  { agentStart := .ok (str
      "SSH_AUTH_SOCK=/tmp/ssh-abc/agent.7; export SSH_AUTH_SOCK;\nSSH_AGENT_PID=8; export SSH_AGENT_PID;\necho Agent pid 8;"),
    executable := .ok (str "/opt/resource/in"),
    sshAdd := .ok (str "Identity added") }

def brokerRunTwice : AuthManager × World × CleanupTrace :=
  cleanup
    (gitConfigArgs agentOkOracle
      (gitConfigArgs agentOkOracle (newAuthManager sshRunSource) emptyWorld).2.1
      (gitConfigArgs agentOkOracle (newAuthManager sshRunSource) emptyWorld).2.2).2.1
    (gitConfigArgs agentOkOracle
      (gitConfigArgs agentOkOracle (newAuthManager sshRunSource) emptyWorld).2.1
      (gitConfigArgs agentOkOracle (newAuthManager sshRunSource) emptyWorld).2.2).2.2

/-- C2 at its failing input: with an ssh key configured, the first
`gitConfigArgs` call stores the key at the first temp path and records it in
`credsPath_`; a second call stores a second copy and overwrites the record;
`cleanup` then removes only the second file, and the first key file — an
artifact produced by the broker during the operation — still exists on
disk. -/
theorem gitConfigArgs_double_call_leak :
    (gitConfigArgs agentOkOracle (newAuthManager sshRunSource) emptyWorld).2.1.credsPath_
      = tempName privateKeyPattern 0 ∧
    brokerRunTwice.2.2.removed = [tempName privateKeyPattern 1] ∧
    fileExists brokerRunTwice.2.1 (tempName privateKeyPattern 0) = true := by
  decide

def agentFailOracle : ExecOracle :=
  { agentStart := .error (str "fork/exec ssh-agent: exec format error"),
    executable := .ok [], sshAdd := .ok [] }

/-- C3 at its failing input: starting the agent fails, `sshAddKey` returns
that failure, but `gitConfigArgs` (the spec's `vcsConfigEntries()`) discards
it and reports success with the `core.sshCommand` entry — the failure is
silently swallowed instead of being returned to the caller. -/
theorem gitConfigArgs_swallows_sshAddKey_error :
    (sshAddKey agentFailOracle (newAuthManager sshRunSource) emptyWorld).1
      = .error (str "fork/exec ssh-agent: exec format error") ∧
    (gitConfigArgs agentFailOracle (newAuthManager sshRunSource) emptyWorld).1
      = .ok [(str "core.sshCommand", sshCommandOverride)] := by
  decide

/-! ## Claim theorems: agent output parsing (C6) -/

theorem takeWhile_append_all (p : Char → Bool) (a b : Str) (h : ∀ x ∈ a, p x = true) :
    (a ++ b).takeWhile p = a ++ b.takeWhile p := by
  induction a with
  | nil => simp
  | cons c cs ih =>
    have hc : p c = true := h c (List.mem_cons_self c cs)
    have hcs : ∀ x ∈ cs, p x = true := fun x hx => h x (List.mem_cons_of_mem c hx)
    simp [List.takeWhile_cons, hc, ih hcs]

theorem takeWhile_all (p : Char → Bool) (a : Str) (h : ∀ x ∈ a, p x = true) :
    a.takeWhile p = a := by
  have := takeWhile_append_all p a [] h
  simpa using this

theorem dropWhile_append_all (p : Char → Bool) (a b : Str) (h : ∀ x ∈ a, p x = true) :
    (a ++ b).dropWhile p = b.dropWhile p := by
  induction a with
  | nil => simp
  | cons c cs ih =>
    have hc : p c = true := h c (List.mem_cons_self c cs)
    have hcs : ∀ x ∈ cs, p x = true := fun x hx => h x (List.mem_cons_of_mem c hx)
    simp [List.dropWhile_cons, hc, ih hcs]

theorem splitChar_two_of_mem (sep : Char) (a : Str) (h : sep ∈ a) :
    ∃ t, splitChar sep a =
      a.takeWhile (fun c => c != sep) ::
        ((a.dropWhile (fun c => c != sep)).tail.takeWhile (fun c => c != sep)) :: t := by
  refine ⟨(splitChar sep ((a.dropWhile (fun c => c != sep)).tail)).tail, ?_⟩
  rw [splitChar_cons_of_mem sep a h]
  rw [splitChar_cons_struct sep ((a.dropWhile (fun c => c != sep)).tail)]
  simp

theorem splitChar_append_cons (sep : Char) (a b : Str) (h : sep ∉ a) :
    splitChar sep (a ++ sep :: b) = a :: splitChar sep b := by
  induction a with
  | nil => simp [splitChar]
  | cons c cs ih =>
    have hc : ¬ c = sep := fun hh => h (hh ▸ List.mem_cons_self c cs)
    have hcs : sep ∉ cs := fun hh => h (List.mem_cons_of_mem c hh)
    simp [splitChar, hc, ih hcs]

/-- The per-line description of the scan: a line's first `;`-segment. -/
def firstSeg (s : Str) : Str := s.takeWhile (fun c => c != ';')

/-- Text before the first `=` of a segment. -/
def varName (a : Str) : Str := a.takeWhile (fun c => c != '=')

/-- Text between the first and the second `=` of a segment (the whole
remainder when there is no second `=`). -/
def varValue (a : Str) : Str :=
  ((a.dropWhile (fun c => c != '=')).tail).takeWhile (fun c => c != '=')

/-- What a line contributes to `am.sshAgentVars`: its first `;`-segment,
when that segment contains `=`. -/
def lineRecord (s : Str) : Option Str :=
  if '=' ∈ firstSeg s then some (firstSeg s) else none

/-- What a line contributes to the process environment. -/
def lineUpdate (s : Str) : Option (Str × Str) :=
  if '=' ∈ firstSeg s then some (varName (firstSeg s), varValue (firstSeg s)) else none

def setOpt (env : List (Str × Str)) : Option (Str × Str) → List (Str × Str)
  | none => env
  | some (k, v) => setAssoc env k v

def setEnvList : List (Str × Str) → List (Str × Str) → List (Str × Str)
  | env, [] => env
  | env, (k, v) :: rest => setEnvList (setAssoc env k v) rest

def joinLines : List Str → Str
  | [] => []
  | [l] => l
  | l :: l2 :: ls => l ++ '\n' :: joinLines (l2 :: ls)

theorem agentLineStep_eq (acc : List Str × List (Str × Str)) (s : Str) :
    agentLineStep acc s = (acc.1 ++ (lineRecord s).toList, setOpt acc.2 (lineUpdate s)) := by
  cases hs : splitChar ';' s with
  | nil => exact absurd hs (splitChar_ne_nil ';' s)
  | cons a0 rest =>
    have hstruct := splitChar_cons_struct ';' s
    rw [hs] at hstruct
    injection hstruct with h1 h2
    subst h1
    simp only [agentLineStep, hs]
    by_cases hm : '=' ∈ s.takeWhile (fun c => c != ';')
    · obtain ⟨t, ht⟩ := splitChar_two_of_mem '=' (s.takeWhile (fun c => c != ';')) hm
      rw [if_pos hm, ht]
      simp [lineRecord, lineUpdate, varName, varValue, firstSeg, setOpt, hm]
    · rw [if_neg hm]
      simp [lineRecord, lineUpdate, setOpt, firstSeg, hm]

theorem foldl_agentLineStep (lines : List Str) (vars : List Str)
    (env : List (Str × Str)) :
    lines.foldl agentLineStep (vars, env) =
      (vars ++ lines.filterMap lineRecord, setEnvList env (lines.filterMap lineUpdate)) := by
  induction lines generalizing vars env with
  | nil => simp [setEnvList]
  | cons l ls ih =>
    rw [List.foldl_cons, agentLineStep_eq]
    by_cases hm : '=' ∈ firstSeg l
    · simp only [lineRecord, lineUpdate, if_pos hm, Option.toList_some, setOpt]
      rw [ih]
      simp [List.filterMap_cons, lineRecord, lineUpdate, if_pos hm, setEnvList]
    · simp only [lineRecord, lineUpdate, if_neg hm, Option.toList_none, setOpt]
      rw [List.append_nil, ih]
      simp [List.filterMap_cons, lineRecord, lineUpdate, if_neg hm]

theorem splitChar_joinLines : ∀ (lines : List Str), (∀ l ∈ lines, '\n' ∉ l) →
    lines ≠ [] → splitChar '\n' (joinLines lines) = lines
  | [], _, hne => absurd rfl hne
  | [l], h, _ => by
      simp [joinLines, splitChar_of_not_mem '\n' l (h l (by simp))]
  | l :: l2 :: ls, h, _ => by
      have hl : '\n' ∉ l := h l (by simp)
      have hrest : ∀ x ∈ l2 :: ls, '\n' ∉ x := fun x hx => h x (List.mem_cons_of_mem l hx)
      rw [joinLines, splitChar_append_cons '\n' l _ hl,
        splitChar_joinLines (l2 :: ls) hrest (by simp)]

/-- C6 (amended): for every newline-free line list, the scan records exactly
the first `;`-segment of each line whose segment contains `=`, and for each
such segment sets the variable named by the text before its first `=` to the
text between its first and second `=`; lines whose first `;`-segment has no
`=` record and set nothing.  For a line `NAME=value; export NAME;` whose
`NAME` and `value` are free of `;` and `=`, the recorded entry is
`NAME=value` and the variable `NAME` is set to exactly `value`. -/
theorem applyAgentOutput_per_line (lines : List Str) (env : List (Str × Str))
    (hl : ∀ l ∈ lines, '\n' ∉ l) :
    applyAgentOutput (joinLines lines) env =
      (lines.filterMap lineRecord, setEnvList env (lines.filterMap lineUpdate)) ∧
    (∀ NAME value : Str, ';' ∉ NAME → '=' ∉ NAME → ';' ∉ value → '=' ∉ value →
      lineRecord (NAME ++ '=' :: value ++ str "; export " ++ NAME ++ str ";")
          = some (NAME ++ '=' :: value) ∧
      lineUpdate (NAME ++ '=' :: value ++ str "; export " ++ NAME ++ str ";")
          = some (NAME, value)) := by
  constructor
  · cases lines with
    | nil =>
      simp [joinLines, applyAgentOutput, splitChar, agentLineStep_eq, lineRecord,
        lineUpdate, firstSeg, setOpt, setEnvList]
    | cons l ls =>
      rw [applyAgentOutput, splitChar_joinLines (l :: ls) hl (by simp)]
      simpa using foldl_agentLineStep (l :: ls) [] env
  · intro NAME value hn1 hn2 hv1 hv2
    have hchars : ∀ x ∈ NAME ++ '=' :: value, (x != ';') = true := by
      intro x hx
      rcases List.mem_append.mp hx with hx | hx
      · exact bne_iff_ne.mpr (fun hh => hn1 (hh ▸ hx))
      · rcases List.mem_cons.mp hx with hx | hx
        · subst hx; decide
        · exact bne_iff_ne.mpr (fun hh => hv1 (hh ▸ hx))
    have hN : ∀ x ∈ NAME, (x != '=') = true :=
      fun x hx => bne_iff_ne.mpr (fun hh => hn2 (hh ▸ hx))
    have hsc : str "; export " = ';' :: str " export " := by decide
    have hline : NAME ++ '=' :: value ++ str "; export " ++ NAME ++ str ";"
        = (NAME ++ '=' :: value) ++ (';' :: (str " export " ++ NAME ++ str ";")) := by
      rw [hsc]; simp
    have hfs : firstSeg (NAME ++ '=' :: value ++ str "; export " ++ NAME ++ str ";")
        = NAME ++ '=' :: value := by
      rw [hline, firstSeg, takeWhile_append_all _ _ _ hchars]
      simp [List.takeWhile_cons]
    have hvn : varName (NAME ++ '=' :: value) = NAME := by
      rw [varName, takeWhile_append_all _ _ _ hN]
      simp [List.takeWhile_cons]
    have hvv : varValue (NAME ++ '=' :: value) = value := by
      rw [varValue, dropWhile_append_all _ _ _ hN]
      simp [List.dropWhile_cons]
      intro x hx hh
      refine hv2 ?_
      rw [← hh]
      exact hx
    constructor
    · simp only [lineRecord]
      rw [hfs]
      simp
    · simp only [lineUpdate]
      rw [hfs, hvn, hvv]
      simp

def linesC6 : List Str :=
  [str "SSH_AUTH_SOCK=/tmp/agent.9; export SSH_AUTH_SOCK;", str "echo Agent pid 9;"]

/-- Witness for the amended C6: one real agent line and one echo line; the
variable is recorded and set to exactly its value, and the echo line is
inert. -/
theorem applyAgentOutput_per_line_witness :
    (∀ l ∈ linesC6, '\n' ∉ l) ∧
    applyAgentOutput (joinLines linesC6) [] =
      ([str "SSH_AUTH_SOCK=/tmp/agent.9"], [(str "SSH_AUTH_SOCK", str "/tmp/agent.9")]) ∧
    lineUpdate (str "SSH_AUTH_SOCK" ++ '=' :: str "/tmp/agent.9" ++ str "; export " ++
        str "SSH_AUTH_SOCK" ++ str ";") = some (str "SSH_AUTH_SOCK", str "/tmp/agent.9") :=
  ⟨by decide,
    ((applyAgentOutput_per_line linesC6 [] (by decide)).1).trans (by decide),
    ((applyAgentOutput_per_line linesC6 [] (by decide)).2 (str "SSH_AUTH_SOCK")
      (str "/tmp/agent.9") (by decide) (by decide) (by decide) (by decide)).2⟩

/-- C6 counterexample: on the output `A=b=c; export A;` followed by `x=1`,
the claim demands that `A` be set to exactly `b=c` (a value containing `=`)
and that `x=1` — not of the `NAME=value; export NAME;` form — set nothing;
the code instead sets `A` to `b` (truncated at the second `=`) and sets `x`
to `1`. -/
theorem agent_parse_counterexample :
    (applyAgentOutput (str "A=b=c; export A;\nx=1\n") []).1 = [str "A=b=c", str "x=1"] ∧
    (applyAgentOutput (str "A=b=c; export A;\nx=1\n") []).2.lookup (str "A")
      = some (str "b") ∧
    some (str "b") ≠ some (str "b=c") ∧
    (applyAgentOutput (str "A=b=c; export A;\nx=1\n") []).2.lookup (str "x")
      = some (str "1") := by
  decide
